import Mathlib

/-!
# mqtt-test-server: allow-list filter, lifecycle callbacks and TLS start-up

A shallow embedding of `main.go` and `certloader.go`.

* A Go `string` is a byte sequence: `GoString := List Nat`, one element per byte.
  Go compares strings byte by byte, which is the lexicographic order on lists.
* A variable that a closure captures by reference (`onlyIdS`, `onlyTopicS`) is
  explicit state that the callback receives and returns.
* Calls into packages outside the repository (`crypto/tls`, `crypto/x509`,
  `encoding/pem`, `encoding/json`, `os`, the broker) and into the repository's
  helper files (`lang`, `strCL`) are parameters of the model.
-/

set_option linter.dupNamespace false

namespace MqttTestServer

/-! ## Strings -/

/-- A Go string: its bytes in order. -/
abbrev GoString := List Nat

/-- The bytes of an ASCII literal. -/
def str (s : String) : GoString := s.toList.map Char.toNat

/-- The byte of the comma `","`. -/
def comma : Nat := 44

/-- The byte of the double quote `"\""`. -/
def dquote : Nat := 34

/-- The byte of the single quote `"'"`. -/
def squote : Nat := 39

/-- The byte of the line feed `"\n"`. -/
def newline : Nat := 10

/-- The byte of the blank `" "`. -/
def space : Nat := 32

/-- Go `strings.HasPrefix(s, p)`. -/
def HasPrefix : GoString → GoString → Bool
  | _, [] => true
  | [], _ :: _ => false
  | c :: s, d :: p => c == d && HasPrefix s p

/-- Go `strings.Contains(s, substr)`: `substr` occurs in `s` at some offset. -/
def Contains : GoString → GoString → Bool
  | [], sub => HasPrefix [] sub
  | c :: s, sub => HasPrefix (c :: s) sub || Contains s sub

/-- Go `strings.Split(s, sep)` for a one-byte separator: the pieces of `s`
between the occurrences of `sep`, in order; one more piece than occurrences. -/
def Split (s : GoString) (sep : Nat) : List GoString :=
  match s with
  | [] => [[]]
  | c :: rest =>
    if c = sep then [] :: Split rest sep
    else
      match Split rest sep with
      | [] => [[c]]
      | piece :: pieces => (c :: piece) :: pieces

/-- Go `strings.ReplaceAll(s, old, new)` for one-byte `old` and `new`. -/
def ReplaceAll (s : GoString) (old new : Nat) : GoString :=
  s.map (fun c => if c = old then new else c)

/-! ## Package sort -/

/-- Go `a < b` on strings: the first differing byte decides, a proper prefix
is smaller. -/
def strLt : GoString → GoString → Bool
  | _, [] => false
  | [], _ :: _ => true
  | a :: as, b :: bs => decide (a < b) || (a == b && strLt as bs)

/-- Insertion of one string into an ascending list. -/
def insertString (x : GoString) : List GoString → List GoString
  | [] => [x]
  | y :: ys => if strLt y x then y :: insertString x ys else x :: y :: ys

/-- Go `sort.Strings(x)`: the slice rearranged into ascending order.  Equal
strings are indistinguishable, so the ascending arrangement is unique and the
library's choice of algorithm does not show. -/
def sortStrings : List GoString → List GoString
  | [] => []
  | x :: xs => insertString x (sortStrings xs)

/-- The loop of Go `sort.Search`:
`for i < j { h := int(uint(i+j) >> 1); if !f(h) { i = h + 1 } else { j = h } }; return i`.
The first argument bounds the number of iterations. -/
def searchLoop (f : Nat → Bool) : Nat → Nat → Nat → Nat
  | 0, i, _ => i
  | fuel + 1, i, j =>
    if i < j then
      let h := (i + j) / 2
      if !f h then searchLoop f fuel (h + 1) j else searchLoop f fuel i h
    else i

/-- Go `sort.Search(n, f)`; `n` iterations always suffice. -/
def Search (n : Nat) (f : Nat → Bool) : Nat := searchLoop f n 0 n

/-- Go `sort.SearchStrings(a, x)`:
`Search(len(a), func(i int) bool { return a[i] >= x })`. -/
def SearchStrings (a : List GoString) (x : GoString) : Nat :=
  Search a.length (fun i => !strLt (a.getD i []) x)

/-! ## `in` -/

/-- Source `in(strArr *[]string, str *string) bool` (`in` is reserved in Lean).
The slice behind the pointer is sorted in place, so the result is the slice
after the call together with the returned boolean. -/
def in_ (strArr : List GoString) (s : GoString) : List GoString × Bool :=
  let strArr := sortStrings strArr
  let index := SearchStrings strArr s
  if index < strArr.length ∧ strArr.getD index [] = s then (strArr, true)
  else (strArr, false)

/-! ## Package fmt -/

/-- An operand of `fmt.Sprintf` / `fmt.Sprint`. -/
inductive Arg where
  /-- A `string` or `[]byte`-as-string operand under `%s`. -/
  | s (v : GoString)
  /-- An integer operand under `%d` or `%v`. -/
  | d (n : Nat)
  /-- A `[]string` operand under `%s`, printed as `[a b c]`. -/
  | strs (v : List GoString)
  /-- An `error` operand under `%v`; `none` is the nil error. -/
  | err (e : Option GoString)
  deriving DecidableEq

/-- The elements of a `[]string` separated by blanks. -/
def joinBlank : List GoString → GoString
  | [] => []
  | [x] => x
  | x :: y :: rest => x ++ 32 :: joinBlank (y :: rest)

/-- The text `fmt` prints for one operand. -/
def Arg.render : Arg → GoString
  | .s v => v
  | .d n => (Nat.toDigits 10 n).map Char.toNat
  | .strs v => 91 :: joinBlank v ++ [93]
  | .err (some e) => e
  | .err none => [60, 110, 105, 108, 62]

/-- The scan of a format string: a `%` and the verb after it consume the next
operand, every other byte is copied. -/
def sprintfLoop : GoString → List Arg → GoString
  | [], _ => []
  | [c], _ => [c]
  | c :: v :: rest, args =>
    if c = 37 then
      match args with
      | a :: more => a.render ++ sprintfLoop rest more
      | [] => c :: v :: sprintfLoop rest []
    else c :: sprintfLoop (v :: rest) args

/-- Go `fmt.Sprintf(format, args...)` for the verbs the source uses. -/
def Sprintf (format : String) (args : List Arg) : GoString :=
  sprintfLoop (str format) args

/-- Go `fmt.Sprint(err)`. -/
def Sprint (e : Option GoString) : GoString := (Arg.err e).render

/-! ## Data handed over by the broker -/

/-- Broker type `events.Client`.  The source reads the field `ID`; the other
fields travel in `rest` and only reach `strCL` and `json.Marshal`. -/
structure Client where
  ID : GoString
  rest : GoString
  deriving DecidableEq

/-- Broker type `events.Packet`.  The source reads `TopicName` and `Payload`;
the other fields travel in `rest`. -/
structure Packet where
  TopicName : GoString
  Payload : GoString
  rest : GoString
  deriving DecidableEq

/-- The zero value `events.Packet{}`. -/
def zeroPacket : Packet := ⟨[], [], []⟩

/-! ## TLS material -/

/-- Go `tls.ClientAuthType`; the zero value is `NoClientCert`. -/
inductive ClientAuthType where
  | NoClientCert
  | RequestClientCert
  | RequireAnyClientCert
  | VerifyClientCertIfGiven
  | RequireAndVerifyClientCert
  deriving DecidableEq

/-- Go `*rsa.PrivateKey`, the value `x509.ParsePKCS1PrivateKey` returns. -/
structure RsaPrivateKey where
  N : Nat
  E : Nat
  D : Nat
  Primes : List Nat
  deriving DecidableEq

/-- Go `tls.Certificate`: the chain in the field `Certificate` (`none` is the
nil slice) and the private key, held as an encoding of its value (`none` is
the nil interface). -/
structure Certificate where
  Certificate : Option (List GoString)
  PrivateKey : Option GoString
  deriving DecidableEq

/-- The zero value `tls.Certificate{}`. -/
def zeroCertificate : Certificate := ⟨none, none⟩

/-- Go `*x509.CertPool`: the PEM contents appended to it so far. -/
structure CertPool where
  pems : List GoString
  deriving DecidableEq

/-- Go `x509.NewCertPool()`. -/
def NewCertPool : CertPool := ⟨[]⟩

/-- Go `tls.Config`, the fields the source sets. -/
structure TLSConfig where
  Certificates : List Certificate
  ClientCAs : Option CertPool
  ClientAuth : ClientAuthType
  deriving DecidableEq

/-- The zero value `&tls.Config{}`. -/
def zeroTLSConfig : TLSConfig := ⟨[], none, .NoClientCert⟩

/-- The authentication controller of a listener: `new(auth.Allow)` or the
value of `loadUserAuthFile(userFile)`. -/
inductive Auth where
  | Allow
  | UserFile (path : GoString)
  deriving DecidableEq

/-- Broker type `listeners.Config`. -/
structure ListenerConfig where
  Auth : Option Auth
  TLSConfig : Option TLSConfig
  deriving DecidableEq

/-! ## Effects and the outside world -/

/-- What the program does to the outside, in order. -/
inductive Effect where
  /-- Source `go http.ListenAndServe(":9999", nil)`, the profiling endpoint. -/
  | goListenAndServe (addr : GoString)
  /-- Helper `logPrint(tag, text)`. -/
  | logPrint (tag : String) (text : GoString)
  /-- Helper `logFileStr(isStatus, client, subject, detail)`. -/
  | logFileStr (isStatus : Bool) (client subject detail : GoString)
  /-- Helper `logInit(listen, title)`. -/
  | logInit (listen title : GoString)
  /-- Go `os.ReadFile(path)`. -/
  | ReadFile (path : GoString)
  /-- Source `LoadCert(certPEMByte, keyPEMByte, password)` is entered. -/
  | LoadCert (certPEMByte keyPEMByte password : GoString)
  /-- Broker `mqtt.NewServer(nil)`. -/
  | NewServer
  /-- Broker `listeners.NewTCP(id, address)`. -/
  | NewTCP (id address : GoString)
  /-- Broker `server.AddListener(tcp, &conf)`. -/
  | AddListener (conf : ListenerConfig)
  /-- Go `log.Fatal(err)`. -/
  | logFatal (err : GoString)
  /-- Source `go func() { server.Serve() ... }()`. -/
  | goServe
  deriving DecidableEq

/-- The functions the source calls and this model does not define: helper
files of the repository (`lang`, `strCL`), the Go library and the broker. -/
structure World where
  /-- Helper `lang(key)`. -/
  lang : String → GoString
  /-- Helper `strCL(cl)`. -/
  strCL : Client → GoString
  /-- Go `json.Marshal(cl)`. -/
  marshalClient : Client → Except GoString GoString
  /-- Go `json.Marshal(pk)`. -/
  marshalPacket : Packet → Except GoString GoString
  /-- Go `os.ReadFile`. -/
  ReadFile : GoString → Except GoString GoString
  /-- The boolean of Go `certPool.AppendCertsFromPEM(content)`. -/
  pemHasCert : GoString → Bool
  /-- Go `x509.ParsePKCS1PrivateKey`. -/
  ParsePKCS1PrivateKey : GoString → Except GoString RsaPrivateKey
  /-- Go `x509.MarshalPKCS1PrivateKey`. -/
  MarshalPKCS1PrivateKey : RsaPrivateKey → GoString
  /-- Go `pem.EncodeToMemory(&pem.Block{Type: t, Bytes: b})`. -/
  EncodeToMemory : GoString → GoString → GoString
  /-- Go `tls.X509KeyPair`: the certificate and the error (`none` is nil). -/
  X509KeyPair : GoString → GoString → Certificate × Option GoString
  /-- The error of broker `server.AddListener` (`none` is nil). -/
  AddListener : ListenerConfig → Option GoString

/-- Go `certPool.AppendCertsFromPEM(content)`: the pool afterwards and whether
a certificate was appended. -/
def AppendCertsFromPEM (w : World) (pool : CertPool) (content : GoString) :
    CertPool × Bool :=
  if w.pemHasCert content then (⟨pool.pems ++ [content]⟩, true) else (pool, false)

/-! ## certloader.go -/

/-- Source `LoadCert(certPEMByte, keyPEMByte, password)`: the `logPrint` calls
it makes and the certificate it returns. -/
def LoadCert (w : World) (certPEMByte keyPEMByte password : GoString) :
    List Effect × Certificate :=
  if 0 < password.length then
    match w.ParsePKCS1PrivateKey keyPEMByte with
    | .error err =>
      ([.logPrint "X" (Sprintf "%s: %s" [.s (w.lang "ParsePrivateKey"), .s err])],
        zeroCertificate)
    | .ok key =>
      let keyNewPemByte :=
        w.EncodeToMemory (str "RSA PRIVATE KEY") (w.MarshalPKCS1PrivateKey key)
      let pem := w.X509KeyPair certPEMByte keyNewPemByte
      match pem.2 with
      | some err =>
        ([.logPrint "X"
            (Sprintf "%s%s: %s" [.s (w.lang "SERVERCERT"), .s (w.lang "ERROR"), .s err])],
          pem.1)
      | none => ([], pem.1)
  else
    let pem := w.X509KeyPair certPEMByte keyPEMByte
    match pem.2 with
    | some err =>
      ([.logPrint "X"
          (Sprintf "%s%s: %s" [.s (w.lang "SERVERCERT"), .s (w.lang "ERROR"), .s err])],
        pem.1)
    | none => ([], pem.1)

/-! ## main.go: the allow-lists -/

/-- The six variables of `main` that the `OnMessage` closure captures. -/
structure Filters where
  onlyIdE : Bool
  onlyTopicE : Bool
  onlyPayloadE : Bool
  onlyIdS : List GoString
  onlyTopicS : List GoString
  onlyPayloadS : List GoString
  deriving DecidableEq

/-- The command-line options after `flag.Parse()`. -/
structure Flags where
  versionView : Bool
  listen : GoString
  onlyID : GoString
  onlyTopic : GoString
  onlyPayload : GoString
  userFile : GoString
  certCA : GoString
  certCert : GoString
  certKey : GoString
  certPassword : GoString
  deriving DecidableEq

/-- Source `main`, lines 86 to 100: each option string that is not empty is
split at the commas and switches its list on.  The values. -/
def initFilters (f : Flags) : Filters :=
  { onlyIdE := decide (0 < f.onlyID.length)
    onlyTopicE := decide (0 < f.onlyTopic.length)
    onlyPayloadE := decide (0 < f.onlyPayload.length)
    onlyIdS := if 0 < f.onlyID.length then Split f.onlyID comma else []
    onlyTopicS := if 0 < f.onlyTopic.length then Split f.onlyTopic comma else []
    onlyPayloadS := if 0 < f.onlyPayload.length then Split f.onlyPayload comma else [] }

/-- Source `main`, lines 86 to 100: the `logPrint` calls. -/
def initFiltersLog (w : World) (f : Flags) : List Effect :=
  (if 0 < f.onlyID.length then
    [Effect.logPrint "C" (Sprintf "%s%s: %s"
      [.s (w.lang "ONLY"), .s (w.lang "CLIENT"), .strs (Split f.onlyID comma)])]
   else []) ++
  (if 0 < f.onlyTopic.length then
    [Effect.logPrint "C" (Sprintf "%s%s: %s"
      [.s (w.lang "ONLY"), .s (w.lang "TOPIC"), .strs (Split f.onlyTopic comma)])]
   else []) ++
  (if 0 < f.onlyPayload.length then
    [Effect.logPrint "C" (Sprintf "%s%s: %s"
      [.s (w.lang "ONLY"), .s (w.lang "WORD"), .strs (Split f.onlyPayload comma)])]
   else [])

/-! ## main.go: the callbacks -/

/-- Source `server.Events.OnError`. -/
def OnError (w : World) (cl : Client) (err : Option GoString) : List Effect :=
  [.logPrint "D" (Sprintf "%s %s: %v" [.s (w.lang "CLIENT"), .s (w.strCL cl), .err err])]

/-- Source `server.Events.OnConnect`. -/
def OnConnect (w : World) (cl : Client) (pk : Packet) : List Effect :=
  let pkJsonB := match w.marshalPacket pk with
    | .ok b => b
    | .error _ => str ""
  let clJsonB := match w.marshalClient cl with
    | .ok b => b
    | .error _ => str ""
  let infoJson := Sprintf "\x7b\"Client\":%s,\"Packet\":%s\x7d" [.s clJsonB, .s pkJsonB]
  [ .logFileStr true (w.strCL cl) (w.lang "CONNECT") (ReplaceAll infoJson dquote squote),
    .logPrint "L" (Sprintf "%s %s %s: %s"
      [.s (w.lang "CLIENT"), .s (w.strCL cl), .s (w.lang "CONNECT"), .s infoJson]) ]

/-- Source `server.Events.OnDisconnect`. -/
def OnDisconnect (w : World) (cl : Client) (err : Option GoString) : List Effect :=
  [ .logFileStr true (w.strCL cl) (w.lang "DISCONNECT") (ReplaceAll (Sprint err) newline space),
    .logPrint "D" (Sprintf "%s %s %s: %v"
      [.s (w.lang "CLIENT"), .s (w.strCL cl), .s (w.lang "DISCONNECT"), .err err]) ]

/-- Source `server.Events.OnSubscribe`. -/
def OnSubscribe (w : World) (filter : GoString) (cl : Client) (qos : Nat) : List Effect :=
  [ .logFileStr true (w.strCL cl) (w.lang "SUBSCRIBED")
      (Sprintf "%s (QOS%d)" [.s filter, .d qos]),
    .logPrint "S" (Sprintf "%s %s %s %s, (QOS:%v)"
      [.s (w.lang "CLIENT"), .s (w.strCL cl), .s (w.lang "SUBSCRIBED"), .s filter, .d qos]) ]

/-- Source `server.Events.OnUnsubscribe`. -/
def OnUnsubscribe (w : World) (filter : GoString) (cl : Client) : List Effect :=
  [ .logFileStr true (w.strCL cl) (w.lang "UNSUBSCRIBED") filter,
    .logPrint "U" (Sprintf "%s %s %s %s"
      [.s (w.lang "CLIENT"), .s (w.strCL cl), .s (w.lang "UNSUBSCRIBED"), .s filter]) ]

/-- What one call of `OnMessage` leaves behind: the captured variables after
it, the calls it made, and the two results `pkx` and `err` (`none` is nil). -/
structure MessageResult where
  filters : Filters
  effects : List Effect
  pkx : Packet
  err : Option GoString
  deriving DecidableEq

/-- Source `OnMessage`, lines 263 to 269: the loop over `onlyPayloadS` that
sets `inWord` and breaks at the first keyword the payload contains. -/
def inWord (payload : GoString) : List GoString → Bool
  | [] => false
  | word :: words => if Contains payload word then true else inWord payload words

/-- Source `OnMessage`, lines 261 to 276. -/
def OnMessagePayload (w : World) (st : Filters) (cl : Client) (pk pkx : Packet) :
    MessageResult :=
  let payload := pkx.Payload
  if st.onlyPayloadE && !inWord payload st.onlyPayloadS then ⟨st, [], pkx, none⟩
  else
    ⟨st,
      [ .logFileStr false (w.strCL cl) pkx.TopicName payload,
        .logPrint "M" (Sprintf "%s: %s, %s: %s, %s: %s"
          [.s (w.lang "MESSAGE"), .s (w.strCL cl), .s (w.lang "TOPIC"), .s pkx.TopicName,
           .s (w.lang "PAYLOAD"), .s payload]) ],
      pk, none⟩

/-- Source `OnMessage`, lines 257 to 276. -/
def OnMessageTopic (w : World) (st : Filters) (cl : Client) (pk pkx : Packet) :
    MessageResult :=
  if st.onlyTopicE then
    let r := in_ st.onlyTopicS pkx.TopicName
    let st := { st with onlyTopicS := r.1 }
    if !r.2 then ⟨st, [], pkx, none⟩ else OnMessagePayload w st cl pk pkx
  else OnMessagePayload w st cl pk pkx

/-- Source `server.Events.OnMessage`.  `pkx = pk` comes first; a bare `return`
hands back the named results `pkx` and `err` as they stand. -/
def OnMessage (w : World) (st : Filters) (cl : Client) (pk : Packet) : MessageResult :=
  let pkx := pk
  if st.onlyIdE then
    let r := in_ st.onlyIdS cl.ID
    let st := { st with onlyIdS := r.1 }
    if !r.2 then ⟨st, [], pkx, none⟩ else OnMessageTopic w st cl pk pkx
  else OnMessageTopic w st cl pk pkx

/-- The captured variables after the broker has delivered the messages of
`history`, one after the other. -/
def afterMessages (w : World) (st : Filters) : List (Client × Packet) → Filters
  | [] => st
  | m :: history => afterMessages w (OnMessage w st m.1 m.2).filters history

/-- The message was recorded: `logFileStr(false, ...)` and `logPrint("M", ...)`
are both among the calls. -/
def recorded (effects : List Effect) : Bool :=
  effects.any (fun e => match e with
    | .logFileStr false _ _ _ => true
    | _ => false) &&
  effects.any (fun e => match e with
    | .logPrint tag _ => tag == "M"
    | _ => false)

/-! ## main.go: start-up -/

/-- The local `version` of `main`. -/
def version : GoString := str "1.3.2"

/-- The locals `tlsConfig`, `certPool` and `useTLS` of `main`. -/
structure TLSState where
  tlsConfig : TLSConfig
  certPool : CertPool
  useTLS : Bool
  deriving DecidableEq

/-- How `main` goes on after start-up: it returned, it stopped in
`log.Fatal`, or the broker serves with the listener configuration `conf` and
the callbacks over `filters`. -/
inductive Outcome where
  | returned
  | fatal (err : GoString)
  | serving (filters : Filters) (conf : ListenerConfig)
  deriving DecidableEq

/-- A run of `main` up to the point where it waits for the stop signal. -/
structure Run where
  effects : List Effect
  outcome : Outcome
  deriving DecidableEq

/-- Source `main`, lines 112 to 132: the CA file.  `error` is an early
`return`; both sides carry the effects of the stage. -/
def loadCA (w : World) (f : Flags) : Except (List Effect) (List Effect × TLSState) :=
  let tlsConfig := zeroTLSConfig
  let certPool := NewCertPool
  let useTLS := false
  if 0 < f.certCA.length then
    match w.ReadFile f.certCA with
    | .error err =>
      .error [ .ReadFile f.certCA,
        .logPrint "X" (Sprintf "%s%s: %s: %s)"
          [.s (w.lang "CACERT"), .s (w.lang "ERROR"), .s f.certCA, .s err]) ]
    | .ok contentC =>
      let r := AppendCertsFromPEM w certPool contentC
      let certPool := r.1
      let isok := r.2
      if !isok then
        .error [ .ReadFile f.certCA,
          .logPrint "X" (Sprintf "%s%s: %s (%d)"
            [.s (w.lang "CACERT"), .s (w.lang "ERROR"), .s f.certCA, .d contentC.length]) ]
      else
        let tlsConfig : TLSConfig :=
          { Certificates := []
            ClientCAs := some certPool
            ClientAuth := .RequireAndVerifyClientCert }
        .ok ([ .ReadFile f.certCA,
            .logPrint "C" (Sprintf "%s: %s (%d)"
              [.s (w.lang "CACERT"), .s f.certCA, .d contentC.length]) ],
          ⟨tlsConfig, certPool, true⟩)
  else .ok ([], ⟨tlsConfig, certPool, useTLS⟩)

/-- Source `main`, lines 133 to 169: the server certificate and key. -/
def loadServerCert (w : World) (f : Flags) (st : TLSState) :
    Except (List Effect) (List Effect × TLSState) :=
  if 0 < f.certCert.length ∧ f.certKey.length = 0 then
    .error [ .logPrint "X" (Sprintf "%s%s: %s"
      [.s (w.lang "SERVERKEY"), .s (w.lang "ERROR"), .s (w.lang "NOTEMPTY")]) ]
  else if f.certCert.length = 0 ∧ 0 < f.certKey.length then
    .error [ .logPrint "X" (Sprintf "%s%s: %s"
      [.s (w.lang "SERVERCERT"), .s (w.lang "ERROR"), .s (w.lang "NOTEMPTY")]) ]
  else if 0 < f.certCert.length ∧ 0 < f.certKey.length then
    match w.ReadFile f.certCert with
    | .error err =>
      .error [ .ReadFile f.certCert,
        .logPrint "X" (Sprintf "%s%s: %s: %s"
          [.s (w.lang "SERVERCERT"), .s (w.lang "ERROR"), .s f.certCert, .s err]) ]
    | .ok contentC =>
      let e1 : List Effect :=
        [ .ReadFile f.certCert,
          .logPrint "C" (Sprintf "%s: %s (%d)"
            [.s (w.lang "SERVERCERT"), .s f.certCert, .d contentC.length]) ]
      match w.ReadFile f.certKey with
      | .error err =>
        .error (e1 ++ [ .ReadFile f.certKey,
          .logPrint "X" (Sprintf "%s%s: %s: %s"
            [.s (w.lang "SERVERKEY"), .s (w.lang "ERROR"), .s f.certKey, .s err]) ])
      | .ok contentK =>
        let e2 : List Effect :=
          e1 ++ [ .ReadFile f.certKey,
            .logPrint "C" (Sprintf "%s: %s (%d)"
              [.s (w.lang "SERVERKEY"), .s f.certKey, .d contentK.length]),
            .LoadCert contentC contentK f.certPassword ]
        let r := LoadCert w contentC contentK f.certPassword
        let cert := r.2
        if cert.Certificate = none then .error (e2 ++ r.1)
        else
          let tlsConfig : TLSConfig :=
            if 0 < f.certCA.length then
              { Certificates := [cert]
                ClientCAs := some st.certPool
                ClientAuth := .NoClientCert }
            else
              { Certificates := [cert]
                ClientCAs := none
                ClientAuth := .NoClientCert }
          .ok (e2 ++ r.1, ⟨tlsConfig, st.certPool, true⟩)
  else .ok ([], st)

/-- Source `main`, lines 178 to 201: the listener configuration. -/
def listenerConf (userFile : GoString) (st : TLSState) : ListenerConfig :=
  if st.useTLS then
    if 0 < userFile.length then
      { Auth := some (.UserFile userFile), TLSConfig := some st.tlsConfig }
    else
      { Auth := some .Allow, TLSConfig := some st.tlsConfig }
  else
    if 0 < userFile.length then
      { Auth := some (.UserFile userFile), TLSConfig := none }
    else
      { Auth := some .Allow, TLSConfig := none }

/-- Source `main`, lines 170 to 279: the broker and its listener.  The global
`userFile` is passed in. -/
def startListener (w : World) (f : Flags) (filters : Filters) (st : TLSState) : Run :=
  let e1 : List Effect :=
    (if 0 < f.certPassword.length then
      [Effect.logPrint "C" (Sprintf "%s: (%d)"
        [.s (w.lang "SERVERKEYPWD"), .d f.certPassword.length])]
     else []) ++
    [ .logPrint "I" (w.lang "BOOTING" ++ f.listen ++ str " ..."),
      .NewServer,
      .NewTCP f.listen f.listen ]
  let conf := listenerConf f.userFile st
  match w.AddListener conf with
  | some err => ⟨e1 ++ [.AddListener conf, .logFatal err], .fatal err⟩
  | none =>
    ⟨e1 ++ [.AddListener conf, .goServe, .logPrint "I" (w.lang "BOOTOK")],
      .serving filters conf⟩

/-- Source `main`, lines 43 to 81: the profiling endpoint and the two title
lines. -/
def banner (w : World) : List Effect :=
  [ .goListenAndServe (str ":9999"),
    .logPrint "I" (w.lang "TITLE" ++ str " v" ++ version ++
      str " (KagurazakaYashi@Tongdy, 2023)"),
    .logPrint "I" (w.lang "HELP" ++ str " https://github.com/tongdysoft/mqtt-test-server") ]

/-- Source `main`, from its first line to the wait for the stop signal
(`<-done`).  The signal channel and the shutdown after it are left out. -/
def main (w : World) (f : Flags) : Run :=
  if f.versionView then ⟨banner w, .returned⟩
  else
    let filters := initFilters f
    let e1 := banner w ++ initFiltersLog w f ++
      [.logInit f.listen (w.lang "TITLE" ++ str " v" ++ version)]
    match loadCA w f with
    | .error e => ⟨e1 ++ e, .returned⟩
    | .ok (e2, st) =>
      match loadServerCert w f st with
      | .error e => ⟨e1 ++ e2 ++ e, .returned⟩
      | .ok (e3, st) =>
        let r := startListener w f filters st
        ⟨e1 ++ e2 ++ e3 ++ r.effects, r.outcome⟩

/-- The effect is the entry into `LoadCert`. -/
def isLoadCert : Effect → Bool
  | .LoadCert _ _ _ => true
  | _ => false

/-- The effect creates the broker or a listener, or adds a listener. -/
def isListener : Effect → Bool
  | .NewServer => true
  | .NewTCP _ _ => true
  | .AddListener _ => true
  | .goServe => true
  | _ => false

/-- None of the effects is the entry into `LoadCert`. -/
def noLoadCert (effects : List Effect) : Bool := effects.all (fun e => !isLoadCert e)

/-- None of the effects creates the broker or a listener, or adds a listener. -/
def noListener (effects : List Effect) : Bool := effects.all (fun e => !isListener e)

/-- The PEM block of type `RSA PRIVATE KEY` around the PKCS#1 serialization of
`key`: `pem.EncodeToMemory(&pem.Block{Type: "RSA PRIVATE KEY", Bytes: x509.MarshalPKCS1PrivateKey(key)})`. -/
def rsaPem (w : World) (key : RsaPrivateKey) : GoString :=
  w.EncodeToMemory (str "RSA PRIVATE KEY") (w.MarshalPKCS1PrivateKey key)

/-- The key cannot be used, in the words of the specification: with a non-empty
password the key bytes fail to parse as a PKCS#1 RSA private key, or, in the
branch that the password selects, pairing certificate and key fails. -/
def KeyUnusable (w : World) (cert key password : GoString) : Prop :=
  if 0 < password.length then
    match w.ParsePKCS1PrivateKey key with
    | .error _ => True
    | .ok k => (w.X509KeyPair cert (rsaPem w k)).2 ≠ none
  else (w.X509KeyPair cert key).2 ≠ none

/-- The listener configuration `main` builds when only a CA file is given and
its content is `content`. -/
def caOnlyConf (f : Flags) (content : GoString) : ListenerConfig :=
  { Auth := some (if 0 < f.userFile.length then .UserFile f.userFile else .Allow)
    TLSConfig := some
      { Certificates := []
        ClientCAs := some ⟨[content]⟩
        ClientAuth := .RequireAndVerifyClientCert } }

/-! ## Notions used in the statements -/

/-- The list ascends: no element is smaller than one before it. -/
def Ascending (l : List GoString) : Prop := l.Pairwise (fun a b => strLt b a = false)

/-- The three tests of `OnMessage` on the captured variables `st`. -/
def Admits (st : Filters) (cl : Client) (pk : Packet) : Prop :=
  (st.onlyIdE = false ∨ cl.ID ∈ st.onlyIdS) ∧
  (st.onlyTopicE = false ∨ pk.TopicName ∈ st.onlyTopicS) ∧
  (st.onlyPayloadE = false ∨ ∃ word, word ∈ st.onlyPayloadS ∧ word <:+: pk.Payload)

/-- Two values of the captured variables that differ at most in the order of
the client-id list and of the topic list. -/
def SameLists (a b : Filters) : Prop :=
  a.onlyIdE = b.onlyIdE ∧ a.onlyTopicE = b.onlyTopicE ∧ a.onlyPayloadE = b.onlyPayloadE ∧
  a.onlyIdS.Perm b.onlyIdS ∧ a.onlyTopicS.Perm b.onlyTopicS ∧ a.onlyPayloadS = b.onlyPayloadS

/-- The filter turns the message down, in the words of the specification: the client
id is not in an enabled client-id list, or the topic is not in an enabled topic
list, or the payload contains no keyword of an enabled payload list. -/
def Rejects (st : Filters) (cl : Client) (pk : Packet) : Prop :=
  (st.onlyIdE = true ∧ cl.ID ∉ st.onlyIdS) ∨
  (st.onlyTopicE = true ∧ pk.TopicName ∉ st.onlyTopicS) ∨
  (st.onlyPayloadE = true ∧ ∀ word, word ∈ st.onlyPayloadS → ¬ word <:+: pk.Payload)

/-! ## Sample inputs -/

/-- A world in which every helper and library call has a simple value: the
file `missing.pem` cannot be read, `server.der` and `broken.der` hold raw bytes,
any other file holds `-----BEGIN ` and its own path; a raw key is three bytes
`N`, `E`, `D`; a key pairs with a certificate when it starts with `-----BEGIN `. -/
def sampleWorld : World where
  lang := fun key => str key
  strCL := fun cl => cl.ID
  marshalClient := fun cl => .ok (str "\"" ++ cl.ID ++ str "\"")
  marshalPacket := fun pk => .ok (str "\"" ++ pk.TopicName ++ str "\"")
  ReadFile := fun path =>
    if path = str "missing.pem" then .error (str "no such file or directory")
    else if path = str "server.der" then .ok [7, 3, 5]
    else if path = str "broken.der" then .ok [7, 3]
    else .ok (str "-----BEGIN " ++ path)
  pemHasCert := fun content => !content.isEmpty
  ParsePKCS1PrivateKey := fun b =>
    match b with
    | [n, e, d] => .ok ⟨n, e, d, []⟩
    | _ => .error (str "asn1: structure error")
  MarshalPKCS1PrivateKey := fun k => [k.N, k.E, k.D]
  EncodeToMemory := fun t b => str "-----BEGIN " ++ t ++ str "-----" ++ b
  X509KeyPair := fun c k =>
    if HasPrefix k (str "-----BEGIN ") then (⟨some [c], some k⟩, none)
    else (zeroCertificate, some (str "tls: failed to find any PEM data in key input"))
  AddListener := fun _ => none

/-- The command line without any option. -/
def noFlags : Flags :=
  { versionView := false, listen := str "127.0.0.1:1883", onlyID := [], onlyTopic := [],
    onlyPayload := [], userFile := [], certCA := [], certCert := [], certKey := [],
    certPassword := [] }

/-- The options `-ca ca.pem -ce server.pem`: a certificate without a key. -/
def certOnlyFlags : Flags :=
  { noFlags with certCA := str "ca.pem", certCert := str "server.pem" }

/-- The options `-ce server.pem -ck broken.der -cp secret`: a raw key that does
not parse. -/
def brokenKeyFlags : Flags :=
  { noFlags with
    certCert := str "server.pem"
    certKey := str "broken.der"
    certPassword := str "secret" }

/-- The option `-ca ca.pem` alone. -/
def caOnlyFlags : Flags :=
  { noFlags with certCA := str "ca.pem" }

/-- The options `-ca ca.pem -ce server.pem -ck server.key`. -/
def mutualFlags : Flags :=
  { noFlags with
    certCA := str "ca.pem"
    certCert := str "server.pem"
    certKey := str "server.key" }

/-- The options `-c sensor1,sensor2 -w alert` on top of `f`, with `-t` empty. -/
def sensorFlags (f : Flags) : Flags :=
  { f with onlyID := str "sensor1,sensor2", onlyTopic := [], onlyPayload := str "alert" }

/-! ## The order of Go strings -/

/-- No string is smaller than itself. -/
theorem strLt_irrefl (a : GoString) : strLt a a = false := by
  induction a with
  | nil => rfl
  | cons x xs ih => simp [strLt, ih]

/-- From `a < b` and `b < c` follows `a < c`. -/
theorem strLt_trans : ∀ (a b c : GoString),
    strLt a b = true → strLt b c = true → strLt a c = true
  | _, [], _, h, _ => by simp [strLt] at h
  | _, _ :: _, [], _, h => by simp [strLt] at h
  | [], _ :: _, _ :: _, _, _ => by simp [strLt]
  | x :: xs, y :: ys, z :: zs, h1, h2 => by
    simp only [strLt, Bool.or_eq_true, Bool.and_eq_true, decide_eq_true_eq, beq_iff_eq] at *
    rcases h1 with h1 | ⟨e1, h1⟩ <;> rcases h2 with h2 | ⟨e2, h2⟩
    · exact Or.inl (lt_trans h1 h2)
    · exact Or.inl (e2 ▸ h1)
    · exact Or.inl (e1 ▸ h2)
    · exact Or.inr ⟨e1.trans e2, strLt_trans xs ys zs h1 h2⟩

/-- Two strings neither of which is smaller than the other are equal. -/
theorem strLt_tricho : ∀ (a b : GoString),
    strLt a b = false → strLt b a = false → a = b
  | [], [], _, _ => rfl
  | [], _ :: _, h, _ => by simp [strLt] at h
  | _ :: _, [], _, h => by simp [strLt] at h
  | x :: xs, y :: ys, h1, h2 => by
    simp only [strLt, Bool.or_eq_false_iff, Bool.and_eq_false_imp, decide_eq_false_iff_not,
      beq_iff_eq] at h1 h2
    have e : x = y := le_antisymm (not_lt.mp h2.1) (not_lt.mp h1.1)
    rw [e, strLt_tricho xs ys (h1.2 e) (h2.2 e.symm)]

/-- From `a ≤ b` and `b < c` follows `a < c`. -/
theorem strLt_of_le_of_lt (a b c : GoString)
    (h1 : strLt b a = false) (h2 : strLt b c = true) : strLt a c = true := by
  cases h : strLt a b with
  | true => exact strLt_trans a b c h h2
  | false => rw [strLt_tricho a b h h1]; exact h2

/-- From `a < b` and `b ≤ c` follows `a < c`. -/
theorem strLt_of_lt_of_le (a b c : GoString)
    (h1 : strLt a b = true) (h2 : strLt c b = false) : strLt a c = true := by
  cases h : strLt b c with
  | true => exact strLt_trans a b c h1 h
  | false => rw [← strLt_tricho b c h h2]; exact h1

/-! ## `sort.Strings` sorts -/

/-- Insertion adds the string and keeps the others. -/
theorem insertString_perm (x : GoString) (l : List GoString) :
    (insertString x l).Perm (x :: l) := by
  induction l with
  | nil => exact List.Perm.refl _
  | cons y ys ih =>
    unfold insertString
    split
    · exact ((List.Perm.cons y ih).trans (List.Perm.swap x y ys))
    · exact List.Perm.refl _

/-- Sorting keeps the elements, each as often as before. -/
theorem sortStrings_perm (l : List GoString) : (sortStrings l).Perm l := by
  induction l with
  | nil => exact List.Perm.refl _
  | cons x xs ih => exact (insertString_perm x _).trans (List.Perm.cons x ih)

/-- Insertion into an ascending list gives an ascending list. -/
theorem insertString_ascending (x : GoString) (l : List GoString) (h : Ascending l) :
    Ascending (insertString x l) := by
  induction l with
  | nil => simp [insertString, Ascending]
  | cons y ys ih =>
    unfold Ascending at h ih ⊢
    rw [List.pairwise_cons] at h
    unfold insertString
    split
    · rename_i hyx
      rw [List.pairwise_cons]
      refine ⟨?_, ih h.2⟩
      intro z hz
      have hz1 : z ∈ x :: ys := (insertString_perm x ys).mem_iff.mp hz
      rcases List.mem_cons.mp hz1 with rfl | hz2
      · cases hxy : strLt z y with
        | false => rfl
        | true =>
          have := strLt_trans y z y hyx hxy
          rw [strLt_irrefl] at this
          exact absurd this (by simp)
      · exact h.1 z hz2
    · rename_i hyx
      simp only [Bool.not_eq_true] at hyx
      rw [List.pairwise_cons, List.pairwise_cons]
      refine ⟨?_, h⟩
      intro z hz
      rcases List.mem_cons.mp hz with rfl | hz
      · exact hyx
      · cases hzx : strLt z x with
        | false => rfl
        | true =>
          have := strLt_of_lt_of_le z x y hzx hyx
          rw [h.1 z hz] at this
          exact absurd this (by simp)

/-- The sorted list ascends. -/
theorem sortStrings_ascending (l : List GoString) : Ascending (sortStrings l) := by
  induction l with
  | nil => simp [sortStrings, Ascending]
  | cons x xs ih => exact insertString_ascending x _ ih

/-! ## `sort.Search` finds the boundary -/

/-- The loop keeps its invariant: everything left of `i` fails `f`, everything
from `j` on satisfies it, and the bound on the iterations is never the reason
for stopping. -/
theorem searchLoop_spec (f : Nat → Bool) (n : Nat)
    (hmono : ∀ i k, i ≤ k → k < n → f i = true → f k = true) :
    ∀ (fuel i j : Nat), i ≤ j → j ≤ n → j - i ≤ fuel →
      (∀ k, k < i → f k = false) → (∀ k, j ≤ k → k < n → f k = true) →
      searchLoop f fuel i j ≤ n ∧
      (∀ k, k < searchLoop f fuel i j → f k = false) ∧
      (∀ k, searchLoop f fuel i j ≤ k → k < n → f k = true) := by
  intro fuel
  induction fuel with
  | zero =>
    intro i j hij hjn hfuel hlo hhi
    have hji : j = i := by omega
    subst hji
    exact ⟨hjn, hlo, hhi⟩
  | succ fuel ih =>
    intro i j hij hjn hfuel hlo hhi
    unfold searchLoop
    by_cases hlt : i < j
    · simp only [hlt, if_true]
      have hh1 : i ≤ (i + j) / 2 := by omega
      have hh2 : (i + j) / 2 < j := by omega
      cases hf : f ((i + j) / 2) with
      | false =>
        simp only [Bool.not_false, if_true]
        refine ih ((i + j) / 2 + 1) j (by omega) hjn (by omega) ?_ hhi
        intro k hk
        cases hfk : f k with
        | false => rfl
        | true =>
          have := hmono k ((i + j) / 2) (by omega) (by omega) hfk
          rw [hf] at this
          exact absurd this (by simp)
      | true =>
        simp only [Bool.not_true, Bool.false_eq_true, if_false]
        refine ih i ((i + j) / 2) hh1 (by omega) (by omega) hlo ?_
        intro k hk hkn
        exact hmono ((i + j) / 2) k hk hkn hf
    · simp only [hlt, if_false]
      have hji : j = i := by omega
      subst hji
      exact ⟨hjn, hlo, hhi⟩

/-- For a predicate that stays true once it is true, `sort.Search(n, f)` is the
first index at which it holds, or `n`. -/
theorem Search_spec (f : Nat → Bool) (n : Nat)
    (hmono : ∀ i k, i ≤ k → k < n → f i = true → f k = true) :
    Search n f ≤ n ∧ (∀ k, k < Search n f → f k = false) ∧
      (∀ k, Search n f ≤ k → k < n → f k = true) :=
  searchLoop_spec f n hmono n 0 n (Nat.zero_le n) (Nat.le_refl n) (by omega)
    (fun k hk => absurd hk (Nat.not_lt_zero k)) (fun k hk hkn => absurd hkn (by omega))

/-- In an ascending list a later element is not smaller than an earlier one. -/
theorem ascending_getD (a : List GoString) (h : Ascending a) (i k : Nat)
    (hik : i ≤ k) (hk : k < a.length) : strLt (a.getD k []) (a.getD i []) = false := by
  rcases Nat.lt_or_eq_of_le hik with hlt | rfl
  · have hi : i < a.length := by omega
    have := (List.pairwise_iff_getElem.mp h) i k hi hk hlt
    simpa [List.getD_eq_getElem, hi, hk] using this
  · exact strLt_irrefl _

/-- On an ascending list `sort.SearchStrings` returns the position of `x` when
`x` is in the list. -/
theorem SearchStrings_hit (a : List GoString) (h : Ascending a) (x : GoString) :
    (SearchStrings a x < a.length ∧ a.getD (SearchStrings a x) [] = x) ↔ x ∈ a := by
  have hmono : ∀ i k, i ≤ k → k < a.length →
      (fun i => !strLt (a.getD i []) x) i = true → (fun i => !strLt (a.getD i []) x) k = true := by
    intro i k hik hk hfi
    simp only [Bool.not_eq_true'] at hfi ⊢
    cases hc : strLt (a.getD k []) x with
    | false => rfl
    | true =>
      have h1 := ascending_getD a h i k hik hk
      have := strLt_of_le_of_lt (a.getD i []) (a.getD k []) x h1 hc
      rw [hfi] at this
      exact absurd this (by simp)
  obtain ⟨_, hlo0, hhi0⟩ := Search_spec _ a.length hmono
  have hlo : ∀ k, k < SearchStrings a x → (!strLt (a.getD k []) x) = false := hlo0
  have hhi : ∀ k, SearchStrings a x ≤ k → k < a.length →
      (!strLt (a.getD k []) x) = true := hhi0
  constructor
  · rintro ⟨hlt, heq⟩
    rw [← heq, List.getD_eq_getElem _ _ hlt]
    exact List.getElem_mem hlt
  · intro hx
    obtain ⟨p, hp, hpx⟩ := List.getElem_of_mem hx
    have hpD : a.getD p [] = x := by rw [List.getD_eq_getElem _ _ hp]; exact hpx
    have hrp : SearchStrings a x ≤ p := by
      by_contra hcon
      have := hlo p (by omega)
      simp only [hpD, strLt_irrefl, Bool.not_false] at this
      exact absurd this (by simp)
    have hr : SearchStrings a x < a.length := by omega
    refine ⟨hr, ?_⟩
    have h1 := hhi (SearchStrings a x) (Nat.le_refl _) hr
    simp only [Bool.not_eq_true'] at h1
    have h2 := ascending_getD a h (SearchStrings a x) p hrp hp
    rw [hpD] at h2
    exact strLt_tricho _ _ h1 h2

/-! ## `in` -/

/-- The list after `in(&L, &s)` is the sorted list. -/
theorem in_fst (L : List GoString) (s : GoString) : (in_ L s).1 = sortStrings L := by
  unfold in_
  dsimp only
  split <;> rfl

/-- The boolean of `in(&L, &s)` is membership. -/
theorem in_snd (L : List GoString) (s : GoString) : (in_ L s).2 = true ↔ s ∈ L := by
  have hhit := SearchStrings_hit (sortStrings L) (sortStrings_ascending L) s
  have hperm := (sortStrings_perm L).mem_iff (a := s)
  unfold in_
  dsimp only
  by_cases hc : SearchStrings (sortStrings L) s < (sortStrings L).length ∧
      (sortStrings L).getD (SearchStrings (sortStrings L) s) [] = s
  · simp only [hc, and_self, if_true, true_iff]
    exact hperm.mp (hhit.mp hc)
  · simp only [hc, if_false, Bool.false_eq_true, false_iff]
    exact fun hs => hc (hhit.mpr (hperm.mpr hs))

/-! ## `strings.Contains` is the substring test -/

/-- The model of `strings.HasPrefix` is the prefix relation. -/
theorem HasPrefix_iff : ∀ (s p : GoString), HasPrefix s p = true ↔ p <+: s
  | s, [] => by simp [HasPrefix]
  | [], d :: p => by simp [HasPrefix]
  | c :: s, d :: p => by
    simp only [HasPrefix, Bool.and_eq_true, beq_iff_eq, List.cons_prefix_cons,
      HasPrefix_iff s p]
    constructor
    · rintro ⟨h1, h2⟩; exact ⟨h1.symm, h2⟩
    · rintro ⟨h1, h2⟩; exact ⟨h1.symm, h2⟩

/-- The model of `strings.Contains` is the substring relation. -/
theorem Contains_iff (s sub : GoString) : Contains s sub = true ↔ sub <:+: s := by
  induction s with
  | nil =>
    simp only [Contains, HasPrefix_iff, List.prefix_nil, List.infix_nil]
  | cons c s ih =>
    simp only [Contains, Bool.or_eq_true, HasPrefix_iff, ih, List.infix_cons_iff]

/-- The keyword loop ends with `inWord` set exactly when the payload contains one
of the keywords. -/
theorem inWord_iff (payload : GoString) (words : List GoString) :
    inWord payload words = true ↔ ∃ word, word ∈ words ∧ word <:+: payload := by
  induction words with
  | nil => simp [inWord]
  | cons x xs ih =>
    unfold inWord
    by_cases hc : Contains payload x = true
    · simp only [hc, if_true, true_iff]
      exact ⟨x, List.mem_cons_self x xs, (Contains_iff payload x).mp hc⟩
    · simp only [hc, if_false, Bool.false_eq_true, ih, List.mem_cons]
      constructor
      · rintro ⟨y, hy, hyp⟩; exact ⟨y, Or.inr hy, hyp⟩
      · rintro ⟨y, hy | hy, hyp⟩
        · subst hy; exact absurd ((Contains_iff payload y).mpr hyp) hc
        · exact ⟨y, hy, hyp⟩

/-! ## `OnMessage` -/

/-- Every value of the captured variables is related to itself. -/
theorem SameLists.refl (a : Filters) : SameLists a a :=
  ⟨rfl, rfl, rfl, List.Perm.refl _, List.Perm.refl _, rfl⟩

/-- The relation composes. -/
theorem SameLists.trans {a b c : Filters} (h1 : SameLists a b) (h2 : SameLists b c) :
    SameLists a c :=
  ⟨h1.1.trans h2.1, h1.2.1.trans h2.2.1, h1.2.2.1.trans h2.2.2.1,
    h1.2.2.2.1.trans h2.2.2.2.1, h1.2.2.2.2.1.trans h2.2.2.2.2.1,
    h1.2.2.2.2.2.trans h2.2.2.2.2.2⟩

/-- The order of the client-id list and of the topic list does not change what
the three tests admit. -/
theorem Admits_congr {a b : Filters} (h : SameLists a b) (cl : Client) (pk : Packet) :
    Admits a cl pk ↔ Admits b cl pk := by
  obtain ⟨h1, h2, h3, h4, h5, h6⟩ := h
  unfold Admits
  rw [h1, h2, h3, h6, h4.mem_iff, h5.mem_iff]

/-- The last stage of `OnMessage`: the payload test and the two log calls. -/
theorem OnMessagePayload_spec (w : World) (st : Filters) (cl : Client) (pk pkx : Packet) :
    (OnMessagePayload w st cl pk pkx).filters = st ∧
    (recorded (OnMessagePayload w st cl pk pkx).effects = true ↔
      (st.onlyPayloadE = false ∨ ∃ word, word ∈ st.onlyPayloadS ∧ word <:+: pkx.Payload)) ∧
    (recorded (OnMessagePayload w st cl pk pkx).effects = false →
      (OnMessagePayload w st cl pk pkx).effects = [] ∧
      (OnMessagePayload w st cl pk pkx).pkx = pkx) ∧
    (recorded (OnMessagePayload w st cl pk pkx).effects = true →
      (OnMessagePayload w st cl pk pkx).pkx = pk) ∧
    (OnMessagePayload w st cl pk pkx).err = none := by
  unfold OnMessagePayload
  dsimp only
  by_cases hc : (st.onlyPayloadE && !inWord pkx.Payload st.onlyPayloadS) = true
  · rw [if_pos hc]
    simp only [Bool.and_eq_true, Bool.not_eq_true', ← Bool.not_eq_true, inWord_iff] at hc
    refine ⟨rfl, ?_, fun _ => ⟨rfl, rfl⟩, ?_, rfl⟩
    · simp only [recorded, List.any_nil, Bool.and_self, Bool.false_eq_true, false_iff]
      rintro (h | h)
      · rw [hc.1] at h; exact absurd h (by simp)
      · exact hc.2 h
    · intro h; simp [recorded] at h
  · rw [if_neg hc]
    simp only [Bool.and_eq_true, Bool.not_eq_true', ← Bool.not_eq_true, inWord_iff,
      not_and, not_not] at hc
    refine ⟨rfl, ?_, ?_, fun _ => rfl, rfl⟩
    · simp only [recorded, List.any_cons, List.any_nil, Bool.or_false, Bool.or_true,
        Bool.true_or, Bool.and_self, beq_self_eq_true, true_iff]
      cases he : st.onlyPayloadE with
      | false => exact Or.inl rfl
      | true => exact Or.inr (hc he)
    · intro h; simp [recorded] at h

/-- The topic test of `OnMessage` and what follows it. -/
theorem OnMessageTopic_spec (w : World) (st : Filters) (cl : Client) (pk : Packet) :
    SameLists (OnMessageTopic w st cl pk pk).filters st ∧
    (recorded (OnMessageTopic w st cl pk pk).effects = true ↔
      (st.onlyTopicE = false ∨ pk.TopicName ∈ st.onlyTopicS) ∧
      (st.onlyPayloadE = false ∨ ∃ word, word ∈ st.onlyPayloadS ∧ word <:+: pk.Payload)) ∧
    (recorded (OnMessageTopic w st cl pk pk).effects = false →
      (OnMessageTopic w st cl pk pk).effects = []) ∧
    (OnMessageTopic w st cl pk pk).pkx = pk ∧
    (OnMessageTopic w st cl pk pk).err = none := by
  have hpay : ∀ st' : Filters,
      (OnMessagePayload w st' cl pk pk).pkx = pk := by
    intro st'
    obtain ⟨_, _, h3, h4, _⟩ := OnMessagePayload_spec w st' cl pk pk
    cases hr : recorded (OnMessagePayload w st' cl pk pk).effects with
    | false => exact (h3 hr).2
    | true => exact h4 hr
  rcases st with ⟨idE, topE, payE, idS, topS, payS⟩
  unfold OnMessageTopic
  cases topE with
  | false =>
    simp only [Bool.false_eq_true, if_false, true_or, true_and]
    obtain ⟨h1, h2, h3, _, h5⟩ := OnMessagePayload_spec w ⟨idE, false, payE, idS, topS, payS⟩ cl pk pk
    refine ⟨?_, h2, fun h => (h3 h).1, hpay _, h5⟩
    rw [h1]
    exact SameLists.refl _
  | true =>
    simp only [if_true, Bool.true_eq_false, false_or]
    have hsame : SameLists ⟨idE, true, payE, idS, (in_ topS pk.TopicName).1, payS⟩
        ⟨idE, true, payE, idS, topS, payS⟩ := by
      refine ⟨rfl, rfl, rfl, List.Perm.refl _, ?_, rfl⟩
      rw [in_fst]
      exact sortStrings_perm _
    cases hin : (in_ topS pk.TopicName).2 with
    | false =>
      have hnot : ¬ pk.TopicName ∈ topS := by
        rw [← in_snd, hin]; simp
      simp only [Bool.not_false, if_true]
      refine ⟨hsame, ?_, ?_⟩
      · simp [recorded, hnot]
      · simp
    | true =>
      have hmem : pk.TopicName ∈ topS := (in_snd _ _).mp hin
      simp only [Bool.not_true, Bool.false_eq_true, if_false]
      obtain ⟨h1, h2, h3, _, h5⟩ := OnMessagePayload_spec w
        ⟨idE, true, payE, idS, (in_ topS pk.TopicName).1, payS⟩ cl pk pk
      refine ⟨?_, ?_, fun h => (h3 h).1, hpay _, h5⟩
      · rw [h1]; exact hsame
      · rw [h2]; simp [hmem]

/-- What one call of `OnMessage` does, in terms of the captured variables
before it. -/
theorem OnMessage_spec (w : World) (st : Filters) (cl : Client) (pk : Packet) :
    SameLists (OnMessage w st cl pk).filters st ∧
    (recorded (OnMessage w st cl pk).effects = true ↔ Admits st cl pk) ∧
    (recorded (OnMessage w st cl pk).effects = false → (OnMessage w st cl pk).effects = []) ∧
    (OnMessage w st cl pk).pkx = pk ∧
    (OnMessage w st cl pk).err = none := by
  rcases st with ⟨idE, topE, payE, idS, topS, payS⟩
  unfold OnMessage Admits
  cases idE with
  | false =>
    simp only [Bool.false_eq_true, if_false, true_or, true_and]
    exact OnMessageTopic_spec w _ cl pk
  | true =>
    simp only [if_true, Bool.true_eq_false, false_or]
    have hsame : SameLists ⟨true, topE, payE, (in_ idS cl.ID).1, topS, payS⟩
        ⟨true, topE, payE, idS, topS, payS⟩ := by
      refine ⟨rfl, rfl, rfl, ?_, List.Perm.refl _, rfl⟩
      rw [in_fst]
      exact sortStrings_perm _
    cases hin : (in_ idS cl.ID).2 with
    | false =>
      have hnot : ¬ cl.ID ∈ idS := by
        rw [← in_snd, hin]; simp
      simp only [Bool.not_false, if_true]
      refine ⟨hsame, ?_, ?_⟩
      · simp [recorded, hnot]
      · simp
    | true =>
      have hmem : cl.ID ∈ idS := (in_snd _ _).mp hin
      simp only [Bool.not_true, Bool.false_eq_true, if_false]
      obtain ⟨h1, h2, h3, h4, h5⟩ := OnMessageTopic_spec w
        ⟨true, topE, payE, (in_ idS cl.ID).1, topS, payS⟩ cl pk
      refine ⟨h1.trans hsame, ?_, h3, h4, h5⟩
      rw [h2]; simp [hmem]

/-- Earlier messages change at most the order of the two sorted lists. -/
theorem afterMessages_same (w : World) (history : List (Client × Packet)) :
    ∀ st : Filters, SameLists (afterMessages w st history) st := by
  induction history with
  | nil => exact fun st => SameLists.refl st
  | cons m history ih =>
    intro st
    exact (ih _).trans (OnMessage_spec w st m.1 m.2).1

/-- The three tests of `OnMessage` on the option strings of the command line. -/
theorem Admits_initFilters (f : Flags) (cl : Client) (pk : Packet) :
    Admits (initFilters f) cl pk ↔
      (f.onlyID = [] ∨ cl.ID ∈ Split f.onlyID comma) ∧
      (f.onlyTopic = [] ∨ pk.TopicName ∈ Split f.onlyTopic comma) ∧
      (f.onlyPayload = [] ∨ ∃ word, word ∈ Split f.onlyPayload comma ∧ word <:+: pk.Payload) := by
  have key : ∀ (o : GoString) (P : List GoString → Prop),
      (decide (0 < o.length) = false ∨ P (if 0 < o.length then Split o comma else [])) ↔
        (o = [] ∨ P (Split o comma)) := by
    intro o P
    cases o with
    | nil => simp
    | cons c o => simp
  unfold Admits initFilters
  dsimp only
  rw [key f.onlyID (fun l => cl.ID ∈ l), key f.onlyTopic (fun l => pk.TopicName ∈ l),
    key f.onlyPayload (fun l => ∃ word, word ∈ l ∧ word <:+: pk.Payload)]

/-! ## The allow-list filter -/

/-- C1: at any point of the broker's life (after any earlier messages), the
`OnMessage` callback records a message, that is calls `logFileStr(false, ...)` and
`logPrint("M", ...)`, if and only if the client-id option is empty or the client
id is one of its comma-separated entries, the topic option is empty or the topic
is one of its entries, and the payload option is empty or the payload contains
one of its entries as a substring.  With `sensor1,sensor2`, no topic list and
`alert`: a message of `sensor3` is not recorded, a message of `sensor1` with
payload `alert: fire` on any topic is recorded, one with payload `ok` is not. -/
theorem OnMessage_records_iff_admitted :
    (∀ (w : World) (f : Flags) (history : List (Client × Packet)) (cl : Client) (pk : Packet),
      recorded (OnMessage w (afterMessages w (initFilters f) history) cl pk).effects = true ↔
        (f.onlyID = [] ∨ cl.ID ∈ Split f.onlyID comma) ∧
        (f.onlyTopic = [] ∨ pk.TopicName ∈ Split f.onlyTopic comma) ∧
        (f.onlyPayload = [] ∨
          ∃ word, word ∈ Split f.onlyPayload comma ∧ word <:+: pk.Payload)) ∧
    (∀ (w : World) (f : Flags) (history : List (Client × Packet)) (rest : GoString)
        (pk : Packet),
      recorded (OnMessage w (afterMessages w (initFilters (sensorFlags f)) history)
        ⟨str "sensor3", rest⟩ pk).effects = false) ∧
    (∀ (w : World) (f : Flags) (history : List (Client × Packet)) (rest topic more : GoString),
      recorded (OnMessage w (afterMessages w (initFilters (sensorFlags f)) history)
        ⟨str "sensor1", rest⟩ ⟨topic, str "alert: fire", more⟩).effects = true) ∧
    (∀ (w : World) (f : Flags) (history : List (Client × Packet)) (rest topic more : GoString),
      recorded (OnMessage w (afterMessages w (initFilters (sensorFlags f)) history)
        ⟨str "sensor1", rest⟩ ⟨topic, str "ok", more⟩).effects = false) := by
  have main : ∀ (w : World) (f : Flags) (history : List (Client × Packet)) (cl : Client)
      (pk : Packet),
      recorded (OnMessage w (afterMessages w (initFilters f) history) cl pk).effects = true ↔
        (f.onlyID = [] ∨ cl.ID ∈ Split f.onlyID comma) ∧
        (f.onlyTopic = [] ∨ pk.TopicName ∈ Split f.onlyTopic comma) ∧
        (f.onlyPayload = [] ∨
          ∃ word, word ∈ Split f.onlyPayload comma ∧ word <:+: pk.Payload) := by
    intro w f history cl pk
    rw [(OnMessage_spec w _ cl pk).2.1,
      Admits_congr (afterMessages_same w history (initFilters f)) cl pk, Admits_initFilters]
  have hsplit : Split (str "alert") comma = [str "alert"] := by decide
  refine ⟨main, ?_, ?_, ?_⟩
  · intro w f history rest pk
    rw [Bool.eq_false_iff, Ne, main]
    dsimp only [sensorFlags]
    rintro ⟨h | h, _⟩
    · exact absurd h (by decide)
    · exact absurd h (by decide)
  · intro w f history rest topic more
    rw [main]
    dsimp only [sensorFlags]
    refine ⟨Or.inr (by decide), Or.inl rfl, Or.inr ⟨str "alert", by decide, ?_⟩⟩
    exact (Contains_iff _ _).mp (by decide)
  · intro w f history rest topic more
    rw [Bool.eq_false_iff, Ne, main]
    dsimp only [sensorFlags]
    rintro ⟨_, _, h | ⟨word, hw, hinfix⟩⟩
    · exact absurd h (by decide)
    · have hw2 : word ∈ [str "alert"] := hsplit ▸ hw
      rw [List.mem_singleton] at hw2
      subst hw2
      exact absurd ((Contains_iff _ _).mpr hinfix) (by decide)

/-- C2: `in(&L, &s)` returns true exactly when `s` equals some element of `L`;
a rearrangement `M` of `L` gives the same answer. -/
theorem in_true_iff_mem (L M : List GoString) (s : GoString) (hperm : L.Perm M) :
    ((in_ L s).2 = true ↔ s ∈ L) ∧ (in_ M s).2 = (in_ L s).2 := by
  refine ⟨in_snd L s, ?_⟩
  rw [Bool.eq_iff_iff, in_snd, in_snd]
  exact hperm.mem_iff.symm

/-- The statement of C2 on the list `["b", "a", "b"]`, its rearrangement
`["a", "b", "b"]` and the string `"a"`. -/
theorem in_true_iff_mem_witness :
    [str "b", str "a", str "b"].Perm [str "a", str "b", str "b"] ∧
    (((in_ [str "b", str "a", str "b"] (str "a")).2 = true ↔
        str "a" ∈ [str "b", str "a", str "b"]) ∧
      (in_ [str "a", str "b", str "b"] (str "a")).2 =
        (in_ [str "b", str "a", str "b"] (str "a")).2) :=
  ⟨by decide, in_true_iff_mem _ _ _ (by decide)⟩

/-- C10 as stated fails: the call `in(&L, &s)` on `L = ["b", "a"]` leaves `L`
as `["a", "b"]`. -/
theorem in_reorders_list :
    (in_ [str "b", str "a"] (str "a")).1 = [str "a", str "b"] ∧
    (in_ [str "b", str "a"] (str "a")).1 ≠ [str "b", str "a"] := by
  decide

/-- C10 amended: after `in(&L, &s)` the list holds the same elements as before,
each as often as before, arranged in ascending order. -/
theorem in_sorts_list (L : List GoString) (s : GoString) :
    (in_ L s).1.Perm L ∧ Ascending (in_ L s).1 ∧ (in_ L s).1 = sortStrings L := by
  rw [in_fst]
  exact ⟨sortStrings_perm L, sortStrings_ascending L, rfl⟩

/-- A message that the filter turns down does not pass the three tests. -/
theorem not_Admits_of_Rejects {st : Filters} {cl : Client} {pk : Packet}
    (h : Rejects st cl pk) : ¬ Admits st cl pk := by
  rintro ⟨h1, h2, h3⟩
  rcases h with ⟨he, hn⟩ | ⟨he, hn⟩ | ⟨he, hn⟩
  · rcases h1 with h1 | h1
    · rw [he] at h1; exact absurd h1 (by simp)
    · exact hn h1
  · rcases h2 with h2 | h2
    · rw [he] at h2; exact absurd h2 (by simp)
    · exact hn h2
  · rcases h3 with h3 | ⟨word, hw, hinfix⟩
    · rw [he] at h3; exact absurd h3 (by simp)
    · exact hn word hw hinfix

/-- C3 as stated fails: with the client-id list `sensor1,sensor2`, a message of
`sensor3` is turned down, and `OnMessage` returns the received packet, which is
not the zero packet, with a nil error. -/
theorem OnMessage_rejected_not_zero :
    (initFilters (sensorFlags noFlags)).onlyIdE = true ∧
    str "sensor3" ∉ (initFilters (sensorFlags noFlags)).onlyIdS ∧
    (OnMessage sampleWorld (initFilters (sensorFlags noFlags)) ⟨str "sensor3", []⟩
      ⟨str "room/1", str "alert", []⟩).pkx = ⟨str "room/1", str "alert", []⟩ ∧
    (OnMessage sampleWorld (initFilters (sensorFlags noFlags)) ⟨str "sensor3", []⟩
      ⟨str "room/1", str "alert", []⟩).pkx ≠ zeroPacket ∧
    (OnMessage sampleWorld (initFilters (sensorFlags noFlags)) ⟨str "sensor3", []⟩
      ⟨str "room/1", str "alert", []⟩).err = none := by
  decide

/-- C3 amended: for every message that the filter turns down, `OnMessage`
makes no log call and returns the received packet itself with a nil error. -/
theorem OnMessage_rejected_returns_received (w : World) (st : Filters) (cl : Client)
    (pk : Packet) (hrej : Rejects st cl pk) :
    (OnMessage w st cl pk).effects = [] ∧ (OnMessage w st cl pk).pkx = pk ∧
      (OnMessage w st cl pk).err = none := by
  obtain ⟨_, h2, h3, h4, h5⟩ := OnMessage_spec w st cl pk
  refine ⟨h3 ?_, h4, h5⟩
  rw [Bool.eq_false_iff, Ne, h2]
  exact not_Admits_of_Rejects hrej

/-- The amended C3 on a message of `sensor3` under the client-id list
`sensor1,sensor2`. -/
theorem OnMessage_rejected_returns_received_witness :
    Rejects (initFilters (sensorFlags noFlags)) ⟨str "sensor3", []⟩
      ⟨str "room/1", str "alert", []⟩ ∧
    ((OnMessage sampleWorld (initFilters (sensorFlags noFlags)) ⟨str "sensor3", []⟩
        ⟨str "room/1", str "alert", []⟩).effects = [] ∧
      (OnMessage sampleWorld (initFilters (sensorFlags noFlags)) ⟨str "sensor3", []⟩
        ⟨str "room/1", str "alert", []⟩).pkx = ⟨str "room/1", str "alert", []⟩ ∧
      (OnMessage sampleWorld (initFilters (sensorFlags noFlags)) ⟨str "sensor3", []⟩
        ⟨str "room/1", str "alert", []⟩).err = none) :=
  ⟨Or.inl ⟨by decide, by decide⟩,
    OnMessage_rejected_returns_received _ _ _ _ (Or.inl ⟨by decide, by decide⟩)⟩

/-! ## Double quotes in the detail strings -/

/-- After the replacement the replaced byte is gone. -/
theorem ReplaceAll_not_mem (s : GoString) (old new : Nat) (h : new ≠ old) :
    old ∉ ReplaceAll s old new := by
  unfold ReplaceAll
  intro hmem
  obtain ⟨c, _, hc⟩ := List.mem_map.mp hmem
  by_cases hco : c = old
  · rw [if_pos hco] at hc; exact h hc
  · rw [if_neg hco] at hc; exact hco hc

/-- The connect callback hands `logFileStr` a detail string without any double
quote: `OnConnect` replaces each one by a single quote. -/
theorem OnConnect_detail_no_dquote (w : World) (cl : Client) (pk : Packet)
    (isStatus : Bool) (client subject detail : GoString) :
    Effect.logFileStr isStatus client subject detail ∈ OnConnect w cl pk → dquote ∉ detail := by
  intro h
  simp only [OnConnect, List.mem_cons, Effect.logFileStr.injEq, List.mem_singleton,
    reduceCtorEq, or_false, List.not_mem_nil] at h
  rw [h.2.2.2]
  exact ReplaceAll_not_mem _ _ _ (by decide)

/-- C9 fails on the code in four of the five callbacks: on a disconnect whose
error text holds a double quote, on a subscription and an unsubscription whose
filter holds one, and on an admitted message whose payload holds one, the
detail string handed to `logFileStr` still holds the double quote. -/
theorem detail_keeps_dquote :
    (Effect.logFileStr true (str "c1") (str "DISCONNECT") (str "read \"eof\"") ∈
        OnDisconnect sampleWorld ⟨str "c1", []⟩ (some (str "read \"eof\"")) ∧
      dquote ∈ str "read \"eof\"") ∧
    (Effect.logFileStr true (str "c1") (str "SUBSCRIBED") (str "a\"b (QOS1)") ∈
        OnSubscribe sampleWorld (str "a\"b") ⟨str "c1", []⟩ 1 ∧
      dquote ∈ str "a\"b (QOS1)") ∧
    (Effect.logFileStr true (str "c1") (str "UNSUBSCRIBED") (str "a\"b") ∈
        OnUnsubscribe sampleWorld (str "a\"b") ⟨str "c1", []⟩ ∧
      dquote ∈ str "a\"b") ∧
    (Effect.logFileStr false (str "c1") (str "room/1") (str "\x7b\"t\":21\x7d") ∈
        (OnMessage sampleWorld (initFilters noFlags) ⟨str "c1", []⟩
          ⟨str "room/1", str "\x7b\"t\":21\x7d", []⟩).effects ∧
      dquote ∈ str "\x7b\"t\":21\x7d") := by
  decide

/-! ## `LoadCert` -/

/-- C7: for a non-empty password and key bytes that parse as a PKCS#1 RSA
private key, `LoadCert(cert, rawKey, password)` makes the same calls and returns
the same certificate as `LoadCert(cert, P, "")`, where `P` is the PEM block of
type `RSA PRIVATE KEY` around the serialization of the parsed key; the
password's value plays no part. -/
theorem LoadCert_password_eq_pem (w : World) (cert rawKey password : GoString)
    (key : RsaPrivateKey) (hpw : password ≠ [])
    (hparse : w.ParsePKCS1PrivateKey rawKey = .ok key) :
    LoadCert w cert rawKey password = LoadCert w cert (rsaPem w key) [] := by
  have hlen : 0 < password.length := List.length_pos.mpr hpw
  unfold LoadCert
  rw [if_pos hlen, hparse]
  simp only [List.length_nil, Nat.lt_irrefl, if_false, rsaPem]

/-- The statement of C7 on the raw key `[7, 3, 5]` and the password `secret`. -/
theorem LoadCert_password_eq_pem_witness :
    str "secret" ≠ [] ∧ sampleWorld.ParsePKCS1PrivateKey [7, 3, 5] = .ok ⟨7, 3, 5, []⟩ ∧
    LoadCert sampleWorld (str "cert") [7, 3, 5] (str "secret") =
      LoadCert sampleWorld (str "cert") (rsaPem sampleWorld ⟨7, 3, 5, []⟩) [] :=
  ⟨by decide, rfl, LoadCert_password_eq_pem sampleWorld _ _ _ _ (by decide) rfl⟩

/-- The certificate `LoadCert` returns for a key that cannot be used, given
that `tls.X509KeyPair` returns the zero certificate together with an error. -/
theorem LoadCert_unusable (w : World) (cert key password : GoString)
    (hlib : ∀ c k, (w.X509KeyPair c k).2 ≠ none → (w.X509KeyPair c k).1 = zeroCertificate)
    (hbad : KeyUnusable w cert key password) :
    (LoadCert w cert key password).2 = zeroCertificate := by
  unfold KeyUnusable at hbad
  unfold LoadCert
  by_cases hlen : 0 < password.length
  · rw [if_pos hlen] at hbad ⊢
    cases hparse : w.ParsePKCS1PrivateKey key with
    | error err => rfl
    | ok k =>
      rw [hparse] at hbad
      have hbad2 : (w.X509KeyPair cert (rsaPem w k)).2 ≠ none := hbad
      have hz := hlib _ _ hbad2
      unfold rsaPem at hbad2 hz
      dsimp only
      cases he : (w.X509KeyPair cert
          (w.EncodeToMemory (str "RSA PRIVATE KEY") (w.MarshalPKCS1PrivateKey k))).2 with
      | none => exact absurd he hbad2
      | some err => exact hz
  · rw [if_neg hlen] at hbad ⊢
    have hz := hlib _ _ hbad
    dsimp only
    cases he : (w.X509KeyPair cert key).2 with
    | none => exact absurd he hbad
    | some err => exact hz

/-- The only calls `LoadCert` makes are `logPrint` calls. -/
theorem LoadCert_noListener (w : World) (cert key password : GoString) :
    noListener (LoadCert w cert key password).1 = true := by
  unfold LoadCert
  split
  · split
    · rfl
    · dsimp only
      split <;> rfl
  · dsimp only
    split <;> rfl

/-! ## Start-up -/

/-- The check `noLoadCert` on a concatenation. -/
theorem noLoadCert_append (a b : List Effect) :
    noLoadCert (a ++ b) = (noLoadCert a && noLoadCert b) := by
  simp [noLoadCert, List.all_append]

/-- The check `noListener` on a concatenation. -/
theorem noListener_append (a b : List Effect) :
    noListener (a ++ b) = (noListener a && noListener b) := by
  simp [noListener, List.all_append]

/-- Lines 86 to 100 of `main` only log. -/
theorem initFiltersLog_quiet (w : World) (f : Flags) :
    noLoadCert (initFiltersLog w f) = true ∧ noListener (initFiltersLog w f) = true := by
  unfold initFiltersLog
  split <;> split <;> split <;> exact ⟨rfl, rfl⟩

/-- The effects of `main` before the CA file is looked at. -/
theorem prelude_quiet (w : World) (f : Flags) (title : GoString) :
    noLoadCert (banner w ++ initFiltersLog w f ++ [.logInit f.listen title]) = true ∧
    noListener (banner w ++ initFiltersLog w f ++ [.logInit f.listen title]) = true := by
  obtain ⟨h1, h2⟩ := initFiltersLog_quiet w f
  rw [noLoadCert_append, noLoadCert_append, noListener_append, noListener_append, h1, h2]
  exact ⟨rfl, rfl⟩

/-- The stage of the CA file reads and logs, and nothing else. -/
theorem loadCA_quiet (w : World) (f : Flags) :
    match loadCA w f with
    | .error e => noLoadCert e = true ∧ noListener e = true
    | .ok r => noLoadCert r.1 = true ∧ noListener r.1 = true := by
  unfold loadCA
  dsimp only
  by_cases h1 : 0 < f.certCA.length
  · rw [if_pos h1]
    cases hr : w.ReadFile f.certCA with
    | error err => exact ⟨rfl, rfl⟩
    | ok c =>
      dsimp only
      by_cases h2 : (!(AppendCertsFromPEM w NewCertPool c).2) = true
      · rw [if_pos h2]; exact ⟨rfl, rfl⟩
      · rw [if_neg h2]; exact ⟨rfl, rfl⟩
  · rw [if_neg h1]; exact ⟨rfl, rfl⟩

/-- With a certificate and no key, or a key and no certificate, the stage of
the server certificate returns at once. -/
theorem loadServerCert_one_sided (w : World) (f : Flags) (st : TLSState)
    (h : (f.certCert ≠ [] ∧ f.certKey = []) ∨ (f.certCert = [] ∧ f.certKey ≠ [])) :
    ∃ e, loadServerCert w f st = .error e ∧ noLoadCert e = true ∧ noListener e = true := by
  unfold loadServerCert
  rcases h with ⟨hc, hk⟩ | ⟨hc, hk⟩
  · have h1 : 0 < f.certCert.length ∧ f.certKey.length = 0 :=
      ⟨List.length_pos.mpr hc, by rw [hk]; rfl⟩
    rw [if_pos h1]
    exact ⟨_, rfl, rfl, rfl⟩
  · have h1 : ¬ (0 < f.certCert.length ∧ f.certKey.length = 0) := by
      rw [hc]; simp
    have h2 : f.certCert.length = 0 ∧ 0 < f.certKey.length :=
      ⟨by rw [hc]; rfl, List.length_pos.mpr hk⟩
    rw [if_neg h1, if_pos h2]
    exact ⟨_, rfl, rfl, rfl⟩

/-- C6: when exactly one of the server certificate path and the server key
path is given, `main` returns, and nothing it did up to then enters `LoadCert`,
creates the broker or a listener, or adds a listener; the other options play no
part. -/
theorem main_partial_identity_returns (w : World) (f : Flags)
    (h : (f.certCert ≠ [] ∧ f.certKey = []) ∨ (f.certCert = [] ∧ f.certKey ≠ [])) :
    (main w f).outcome = .returned ∧ noLoadCert (main w f).effects = true ∧
      noListener (main w f).effects = true := by
  unfold main
  by_cases hv : f.versionView = true
  · rw [if_pos hv]
    exact ⟨rfl, rfl, rfl⟩
  · rw [if_neg hv]
    dsimp only
    obtain ⟨p1, p2⟩ := prelude_quiet w f (w.lang "TITLE" ++ str " v" ++ version)
    have hca := loadCA_quiet w f
    cases hl : loadCA w f with
    | error e =>
      rw [hl] at hca
      dsimp only at hca ⊢
      rw [noLoadCert_append, noListener_append, p1, p2, hca.1, hca.2]
      exact ⟨rfl, rfl, rfl⟩
    | ok r =>
      rw [hl] at hca
      obtain ⟨e2, st⟩ := r
      obtain ⟨e, he, q1, q2⟩ := loadServerCert_one_sided w f st h
      dsimp only at hca ⊢
      rw [he]
      dsimp only
      rw [noLoadCert_append, noListener_append, noLoadCert_append, noListener_append,
        p1, p2, hca.1, hca.2, q1, q2]
      exact ⟨rfl, rfl, rfl⟩

/-- The statement of C6 on `-ca ca.pem -ce server.pem`. -/
theorem main_partial_identity_returns_witness :
    ((certOnlyFlags.certCert ≠ [] ∧ certOnlyFlags.certKey = []) ∨
      (certOnlyFlags.certCert = [] ∧ certOnlyFlags.certKey ≠ [])) ∧
    ((main sampleWorld certOnlyFlags).outcome = .returned ∧
      noLoadCert (main sampleWorld certOnlyFlags).effects = true ∧
      noListener (main sampleWorld certOnlyFlags).effects = true) :=
  ⟨Or.inl ⟨by decide, by decide⟩,
    main_partial_identity_returns sampleWorld certOnlyFlags (Or.inl ⟨by decide, by decide⟩)⟩

/-- With certificate and key given and both files read, the stage of the
server certificate calls `LoadCert` and returns when the certificate it gets
has no chain. -/
theorem loadServerCert_nil (w : World) (f : Flags) (st : TLSState) (cert key : GoString)
    (hc : f.certCert ≠ []) (hk : f.certKey ≠ [])
    (hrc : w.ReadFile f.certCert = .ok cert) (hrk : w.ReadFile f.certKey = .ok key)
    (hnil : (LoadCert w cert key f.certPassword).2.Certificate = none) :
    ∃ e, loadServerCert w f st = .error e ∧ noListener e = true := by
  have hcl : 0 < f.certCert.length := List.length_pos.mpr hc
  have hkl : 0 < f.certKey.length := List.length_pos.mpr hk
  have h1 : ¬ (0 < f.certCert.length ∧ f.certKey.length = 0) := by omega
  have h2 : ¬ (f.certCert.length = 0 ∧ 0 < f.certKey.length) := by omega
  unfold loadServerCert
  rw [if_neg h1, if_neg h2, if_pos ⟨hcl, hkl⟩, hrc]
  dsimp only
  rw [hrk]
  dsimp only
  rw [if_pos hnil]
  refine ⟨_, rfl, ?_⟩
  rw [noListener_append, LoadCert_noListener]
  rfl

/-- C8: given that `tls.X509KeyPair` returns the zero certificate together
with an error, `LoadCert` returns a certificate without chain for every key that
cannot be used (it does not parse under a non-empty password, or the pairing
fails); and `main`, having read certificate and key from their files and
received that certificate, returns without creating the broker or a
listener. -/
theorem LoadCert_unusable_aborts (w : World)
    (hlib : ∀ c k, (w.X509KeyPair c k).2 ≠ none → (w.X509KeyPair c k).1 = zeroCertificate) :
    (∀ cert key password : GoString, KeyUnusable w cert key password →
      (LoadCert w cert key password).2.Certificate = none) ∧
    (∀ (f : Flags) (cert key : GoString), f.certCert ≠ [] → f.certKey ≠ [] →
      w.ReadFile f.certCert = .ok cert → w.ReadFile f.certKey = .ok key →
      KeyUnusable w cert key f.certPassword →
      (main w f).outcome = .returned ∧ noListener (main w f).effects = true) := by
  have hload : ∀ cert key password : GoString, KeyUnusable w cert key password →
      (LoadCert w cert key password).2.Certificate = none := by
    intro cert key password hbad
    rw [LoadCert_unusable w cert key password hlib hbad]
    rfl
  refine ⟨hload, ?_⟩
  intro f cert key hc hk hrc hrk hbad
  unfold main
  by_cases hv : f.versionView = true
  · rw [if_pos hv]
    exact ⟨rfl, rfl⟩
  · rw [if_neg hv]
    dsimp only
    obtain ⟨_, p2⟩ := prelude_quiet w f (w.lang "TITLE" ++ str " v" ++ version)
    have hca := loadCA_quiet w f
    cases hl : loadCA w f with
    | error e =>
      rw [hl] at hca
      dsimp only at hca ⊢
      rw [noListener_append, p2, hca.2]
      exact ⟨rfl, rfl⟩
    | ok r =>
      rw [hl] at hca
      obtain ⟨e2, st⟩ := r
      obtain ⟨e, he, q2⟩ := loadServerCert_nil w f st cert key hc hk hrc hrk
        (hload cert key f.certPassword hbad)
      dsimp only at hca ⊢
      rw [he]
      dsimp only
      rw [noListener_append, noListener_append, p2, hca.2, q2]
      exact ⟨rfl, rfl⟩

/-- In the sample world `tls.X509KeyPair` returns the zero certificate together
with an error. -/
theorem sampleWorld_X509KeyPair_fail (c k : GoString)
    (h : (sampleWorld.X509KeyPair c k).2 ≠ none) :
    (sampleWorld.X509KeyPair c k).1 = zeroCertificate := by
  unfold sampleWorld at h ⊢
  dsimp only at h ⊢
  split
  · rename_i hp
    rw [if_pos hp] at h
    exact absurd rfl h
  · rfl

/-- The statement of C8 on `-ce server.pem -ck broken.der -cp secret`, whose raw
key does not parse. -/
theorem LoadCert_unusable_aborts_witness :
    KeyUnusable sampleWorld (str "-----BEGIN server.pem") [7, 3] (str "secret") ∧
    (LoadCert sampleWorld (str "-----BEGIN server.pem") [7, 3] (str "secret")).2.Certificate
      = none ∧
    (main sampleWorld brokenKeyFlags).outcome = .returned ∧
    noListener (main sampleWorld brokenKeyFlags).effects = true :=
  have hbad : KeyUnusable sampleWorld (str "-----BEGIN server.pem") [7, 3] (str "secret") := by
    unfold KeyUnusable
    rw [if_pos (by decide)]
    trivial
  ⟨hbad,
    (LoadCert_unusable_aborts sampleWorld sampleWorld_X509KeyPair_fail).1 _ _ _ hbad,
    (LoadCert_unusable_aborts sampleWorld sampleWorld_X509KeyPair_fail).2 brokenKeyFlags
      (str "-----BEGIN server.pem") [7, 3] (by decide) (by decide) rfl rfl hbad⟩

/-! ## The TLS configuration of the listener -/

/-- With certificate and key given, the stage of the server certificate, when
it does not return, leaves TLS on and a configuration that holds the
certificate and the zero `ClientAuth`; its `ClientCAs` is the pool when a CA
file was given and nil otherwise. -/
theorem loadServerCert_ok (w : World) (f : Flags) (st st2 : TLSState) (e : List Effect)
    (hc : f.certCert ≠ []) (hk : f.certKey ≠ [])
    (h : loadServerCert w f st = .ok (e, st2)) :
    st2.useTLS = true ∧ st2.tlsConfig.ClientAuth = .NoClientCert ∧
      st2.tlsConfig.Certificates.length = 1 ∧
      st2.tlsConfig.ClientCAs = (if 0 < f.certCA.length then some st.certPool else none) := by
  have hcl : 0 < f.certCert.length := List.length_pos.mpr hc
  have hkl : 0 < f.certKey.length := List.length_pos.mpr hk
  have h1 : ¬ (0 < f.certCert.length ∧ f.certKey.length = 0) := by omega
  have h2 : ¬ (f.certCert.length = 0 ∧ 0 < f.certKey.length) := by omega
  unfold loadServerCert at h
  rw [if_neg h1, if_neg h2, if_pos ⟨hcl, hkl⟩] at h
  cases hrc : w.ReadFile f.certCert with
  | error err => rw [hrc] at h; exact absurd h (by simp)
  | ok cert =>
    rw [hrc] at h
    dsimp only at h
    cases hrk : w.ReadFile f.certKey with
    | error err => rw [hrk] at h; exact absurd h (by simp)
    | ok key =>
      rw [hrk] at h
      dsimp only at h
      by_cases hnil : (LoadCert w cert key f.certPassword).2.Certificate = none
      · rw [if_pos hnil] at h; exact absurd h (by simp)
      · rw [if_neg hnil] at h
        have hst := (Prod.mk.inj (Except.ok.inj h)).2
        rw [← hst]
        dsimp only
        by_cases hca : 0 < f.certCA.length
        · rw [if_pos hca, if_pos hca]; exact ⟨rfl, rfl, rfl, rfl⟩
        · rw [if_neg hca, if_neg hca]; exact ⟨rfl, rfl, rfl, rfl⟩

/-- Whenever a CA file, a server certificate and a server key are all given
and `main` gets as far as serving, the TLS configuration of the listener holds
one certificate and a CA pool, and its `ClientAuth` is `NoClientCert`. -/
theorem main_mutual_clientAuth (w : World) (f : Flags) (filters : Filters)
    (conf : ListenerConfig) (hca : f.certCA ≠ []) (hc : f.certCert ≠ []) (hk : f.certKey ≠ [])
    (hrun : (main w f).outcome = .serving filters conf) :
    ∃ tls pool, conf.TLSConfig = some tls ∧ tls.Certificates.length = 1 ∧
      tls.ClientCAs = some pool ∧ tls.ClientAuth = .NoClientCert := by
  unfold main at hrun
  by_cases hv : f.versionView = true
  · rw [if_pos hv] at hrun; exact absurd hrun (by simp)
  · rw [if_neg hv] at hrun
    dsimp only at hrun
    cases hl : loadCA w f with
    | error e => rw [hl] at hrun; exact absurd hrun (by simp)
    | ok r =>
      obtain ⟨e2, st⟩ := r
      rw [hl] at hrun
      dsimp only at hrun
      cases hs : loadServerCert w f st with
      | error e => rw [hs] at hrun; exact absurd hrun (by simp)
      | ok r2 =>
        obtain ⟨e3, st2⟩ := r2
        rw [hs] at hrun
        dsimp only at hrun
        obtain ⟨u1, u2, u3, u4⟩ := loadServerCert_ok w f st st2 e3 hc hk hs
        rw [if_pos (List.length_pos.mpr hca)] at u4
        unfold startListener at hrun
        dsimp only at hrun
        cases ha : w.AddListener (listenerConf f.userFile st2) with
        | some err => rw [ha] at hrun; exact absurd hrun (by simp)
        | none =>
          rw [ha] at hrun
          have hconf : listenerConf f.userFile st2 = conf := by
            dsimp only at hrun
            injection hrun
          refine ⟨st2.tlsConfig, st.certPool, ?_, u3, u4, u2⟩
          rw [← hconf]
          unfold listenerConf
          rw [if_pos u1]
          split <;> rfl

/-- C4 fails on the code: with `-ca ca.pem -ce server.pem -ck server.key`, all
three files loading, the listener gets the certificate and the CA pool, but
`ClientAuth` is `NoClientCert`, not `RequireAndVerifyClientCert`: lines 159 to
162 of `main` replace the configuration of lines 126 to 129 by one that leaves
`ClientAuth` out. -/
theorem mutual_tls_clientAuth_dropped :
    mutualFlags.certCA ≠ [] ∧ mutualFlags.certCert ≠ [] ∧ mutualFlags.certKey ≠ [] ∧
    (main sampleWorld mutualFlags).outcome =
      .serving (initFilters mutualFlags)
        { Auth := some .Allow
          TLSConfig := some
            { Certificates :=
                [⟨some [str "-----BEGIN server.pem"], some (str "-----BEGIN server.key")⟩]
              ClientCAs := some ⟨[str "-----BEGIN ca.pem"]⟩
              ClientAuth := .NoClientCert } } ∧
    ClientAuthType.NoClientCert ≠ ClientAuthType.RequireAndVerifyClientCert := by
  decide

/-- C5 as stated fails: with `-ca ca.pem` alone and the CA file loading, `main`
does not return: it adds a listener whose TLS configuration holds the CA pool,
`RequireAndVerifyClientCert` and no certificate, and goes on to serve. -/
theorem ca_only_reaches_listener :
    caOnlyFlags.certCA ≠ [] ∧ caOnlyFlags.certCert = [] ∧ caOnlyFlags.certKey = [] ∧
    (main sampleWorld caOnlyFlags).outcome ≠ .returned ∧
    Effect.AddListener (caOnlyConf caOnlyFlags (str "-----BEGIN ca.pem")) ∈
      (main sampleWorld caOnlyFlags).effects ∧
    noListener (main sampleWorld caOnlyFlags).effects = false := by
  decide

/-- C5 amended: when a CA file is given, neither certificate nor key is given
and the version switch is off, then `main` returns without creating a listener
if the CA file cannot be read or holds no certificate; if the CA file loads,
`main` does not return but hands `AddListener` a configuration whose TLS part
holds the CA pool, `RequireAndVerifyClientCert` and no certificate, and start-up
ends in `log.Fatal` exactly when `AddListener` reports an error. -/
theorem main_ca_only (w : World) (f : Flags) (hv : f.versionView = false)
    (hca : f.certCA ≠ []) (hc : f.certCert = []) (hk : f.certKey = []) :
    match w.ReadFile f.certCA with
    | .error _ => (main w f).outcome = .returned ∧ noListener (main w f).effects = true
    | .ok content =>
      if w.pemHasCert content = true then
        Effect.AddListener (caOnlyConf f content) ∈ (main w f).effects ∧
        (main w f).outcome =
          (match w.AddListener (caOnlyConf f content) with
            | some err => .fatal err
            | none => .serving (initFilters f) (caOnlyConf f content))
      else (main w f).outcome = .returned ∧ noListener (main w f).effects = true := by
  have hcal : 0 < f.certCA.length := List.length_pos.mpr hca
  have h1 : ¬ (0 < f.certCert.length ∧ f.certKey.length = 0) := by rw [hc]; simp
  have h2 : ¬ (f.certCert.length = 0 ∧ 0 < f.certKey.length) := by rw [hk]; simp
  have h3 : ¬ (0 < f.certCert.length ∧ 0 < f.certKey.length) := by rw [hc]; simp
  obtain ⟨_, p2⟩ := prelude_quiet w f (w.lang "TITLE" ++ str " v" ++ version)
  unfold main
  rw [hv]
  simp only [Bool.false_eq_true, if_false]
  unfold loadCA
  rw [if_pos hcal]
  cases hr : w.ReadFile f.certCA with
  | error err =>
    dsimp only
    rw [noListener_append, p2]
    exact ⟨rfl, rfl⟩
  | ok content =>
    dsimp only
    unfold AppendCertsFromPEM
    by_cases hp : w.pemHasCert content = true
    · rw [if_pos hp, if_pos hp]
      simp only [Bool.not_true, Bool.false_eq_true, if_false]
      unfold loadServerCert
      rw [if_neg h1, if_neg h2, if_neg h3]
      dsimp only
      have hconf : listenerConf f.userFile
          ⟨⟨[], some ⟨NewCertPool.pems ++ [content]⟩, .RequireAndVerifyClientCert⟩,
            ⟨NewCertPool.pems ++ [content]⟩, true⟩ = caOnlyConf f content := by
        unfold listenerConf caOnlyConf
        simp only [if_true]
        split <;> rfl
      unfold startListener
      dsimp only
      rw [hconf]
      cases ha : w.AddListener (caOnlyConf f content) with
      | some err => simp
      | none => simp
    · rw [if_neg hp, if_neg hp]
      simp only [Bool.not_false, if_true, true_and]
      rw [noListener_append, p2]
      rfl

/-- The amended C5 on `-ca ca.pem` alone, the CA file loading and `AddListener`
reporting no error. -/
theorem main_ca_only_witness :
    caOnlyFlags.versionView = false ∧ caOnlyFlags.certCA ≠ [] ∧ caOnlyFlags.certCert = [] ∧
    caOnlyFlags.certKey = [] ∧
    (Effect.AddListener (caOnlyConf caOnlyFlags (str "-----BEGIN ca.pem")) ∈
        (main sampleWorld caOnlyFlags).effects ∧
      (main sampleWorld caOnlyFlags).outcome =
        .serving (initFilters caOnlyFlags)
          (caOnlyConf caOnlyFlags (str "-----BEGIN ca.pem"))) :=
  ⟨rfl, by decide, rfl, rfl, main_ca_only sampleWorld caOnlyFlags rfl (by decide) rfl rfl⟩

end MqttTestServer
